import Mathlib

/-!
Verification of the `gemini-tts` Netlify function (current revision):
the multi-model TTS orchestrator `tryModelsSequentially`, the backoff
policy `computeDelay`, the retry-after parser `parseRetryAfterSeconds`,
the `truncate` helper, the `pcmToWav` container encoder, and the
handler-level pieces (speech-config selection, candidate list, error
mapping).

Modelling conventions:
* JS byte buffers are `List Nat` (one entry per byte).
* JS numbers that may be fractional (retry-after hints, delays) are `ℚ`;
  integral quantities (HTTP statuses, attempt counts, byte values) are `Nat`;
  epoch milliseconds are `Int`.
* `x || default` on JS strings/numbers (falsy on "" / 0 / null) is modelled
  by the `jsOrStr` / `jsOrNat` helpers below.
* The network is an oracle `Nat → FetchOutcome` giving the outcome of the
  k-th `fetch` call issued by the orchestrator; the orchestrator carries an
  explicit call counter so that the number and order of network calls is
  observable.  `sleep` has no observable effect on the state and is not
  modelled (the values slept for are exactly `computeDelay`, verified
  separately).
-/

/-- `x || default` for JS strings: `null`/`undefined`/`""` are falsy. -/
def jsOrStr (v : Option String) (d : String) : String :=
  match v with
  | none => d
  | some s => if s = "" then d else s

/-- `x || default` for JS numbers: `null`/`undefined`/`0` are falsy. -/
def jsOrNat (v : Option Nat) (d : Nat) : Nat :=
  match v with
  | none => d
  | some n => if n = 0 then d else n

/-- `const TTS_MODELS = [...]` — the fixed allowlist. -/
def TTS_MODELS : List String :=
  ["models/gemini-2.5-pro-preview-tts", "models/gemini-2.5-flash-preview-tts"]

/-- `const DEFAULT_TTS_MODEL = process.env.GEMINI_TTS_MODEL || TTS_MODELS[1]`.
The environment variable is the `env` argument (`none` = unset). -/
def DEFAULT_TTS_MODEL (env : Option String) : String :=
  jsOrStr env (TTS_MODELS.getD 1 "")

/-- Handler: `TTS_MODELS.includes(requestedModel) ? requestedModel : DEFAULT_TTS_MODEL`. -/
def primaryModel (env : Option String) (requestedModel : String) : String :=
  if requestedModel ∈ TTS_MODELS then requestedModel else DEFAULT_TTS_MODEL env

/-- Orchestrator: `const candidates = [model, ...TTS_MODELS.filter(m => m !== model)]`. -/
def candidatesOf (model : String) : List String :=
  model :: TTS_MODELS.filter (fun m => m != model)

/-- `const perModelMaxRetries = 2` — retries per model beyond the first attempt. -/
def perModelMaxRetries : Nat := 2

/-- `const baseDelayMs = 600`. -/
def baseDelayMs : ℚ := 600

/-- `const maxDelayMs = 8000`. -/
def maxDelayMs : ℚ := 8000

/-- `function clamp(v, min, max) { return Math.max(min, Math.min(max, v)); }` -/
def clamp (v lo hi : ℚ) : ℚ := max lo (min hi v)

/-- `function truncate(s, maxLen)`: truncating a string to `maxLen`
characters, appending an ellipsis when something was cut. -/
def truncate (s : String) (maxLen : Nat) : String :=
  if s = "" then ""
  else if maxLen < s.length then (s.take maxLen) ++ "…" else s

/-- `function computeDelay(attempt, baseMs, maxMs, retryAfterSec)`.
`retryAfterSec = none` models the `undefined`/`NaN` case (the
`Number.isFinite` guard failing); the jitter draw `Math.floor(Math.random()*250)`
is passed in explicitly. -/
def computeDelay (attempt : Nat) (baseMs maxMs : ℚ) (retryAfterSec : Option ℚ)
    (jitter : ℚ) : ℚ :=
  match retryAfterSec with
  | some ra =>
    if 0 < ra then min (ra * 1000) 15000
    else min (baseMs * 2 ^ attempt + jitter) maxMs
  | none => min (baseMs * 2 ^ attempt + jitter) maxMs

/-- Classification of the raw `retry-after` header string, as the JS code
distinguishes it: `absent` = `null`/`""` (the `!headerVal` guard), `numeric n`
= `Number(headerVal)` is the finite number `n`, `httpDate d` = `Number` gave
`NaN` but `Date.parse(headerVal)` gave epoch-milliseconds `d`, `malformed` =
neither parse succeeded. -/
inductive RetryAfterHeader where
  | absent
  | numeric (n : ℚ)
  | httpDate (dateMs : Int)
  | malformed
deriving DecidableEq

/-- `function parseRetryAfterSeconds(headerVal)`, with `Date.now()` passed in
as `nowMs`.  Returns `none` where the JS returns `NaN`. -/
def parseRetryAfterSeconds (headerVal : RetryAfterHeader) (nowMs : Int) : Option ℚ :=
  match headerVal with
  | .absent => none
  | .numeric n => some n
  | .httpDate dateMs =>
    let diff : Int := Int.ceil ((((dateMs - nowMs) : Int) : ℚ) / 1000)
    if 0 < diff then some (diff : ℚ) else none
  | .malformed => none

/-! ## PCM → WAV encoder -/

/-- Little-endian 16-bit write (`Buffer.writeUInt16LE`), as byte list. -/
def u16le (n : Nat) : List Nat := [n % 256, n / 256 % 256]

/-- Little-endian 32-bit write (`Buffer.writeUInt32LE`), as byte list. -/
def u32le (n : Nat) : List Nat :=
  [n % 256, n / 256 % 256, n / 65536 % 256, n / 16777216 % 256]

/-- `function pcmToWav(pcmBuffer, sampleRate = 24000, channels = 1,
bitsPerSample = 16)`: a 44-byte RIFF/WAVE header followed by the raw
samples.  The ASCII tag writes (`buffer.write('RIFF', 0)` …) appear as their
byte values. -/
def pcmToWav (pcmBuffer : List Nat) (sampleRate channels bitsPerSample : Nat) :
    List Nat :=
  [82, 73, 70, 70] ++                                       -- "RIFF"
  u32le (36 + pcmBuffer.length) ++
  [87, 65, 86, 69] ++                                       -- "WAVE"
  [102, 109, 116, 32] ++                                    -- "fmt "
  u32le 16 ++
  u16le 1 ++
  u16le channels ++
  u32le sampleRate ++
  u32le (sampleRate * channels * bitsPerSample / 8) ++
  u16le (channels * bitsPerSample / 8) ++
  u16le bitsPerSample ++
  [100, 97, 116, 97] ++                                     -- "data"
  u32le pcmBuffer.length ++
  pcmBuffer

/-- Little-endian 16-bit read at `off` (for the round-trip property). -/
def readU16LE (bytes : List Nat) (off : Nat) : Nat :=
  bytes.getD off 0 + 256 * bytes.getD (off + 1) 0

/-- Little-endian 32-bit read at `off` (for the round-trip property). -/
def readU32LE (bytes : List Nat) (off : Nat) : Nat :=
  bytes.getD off 0 + 256 * bytes.getD (off + 1) 0 +
  65536 * bytes.getD (off + 2) 0 + 16777216 * bytes.getD (off + 3) 0

/-! ## Handler: speech-config selection -/

/-- One entry of `requestBody.speakerConfigs`; `voiceName` is optional since
the JS reads `cfg.voiceName || 'Kore'`. -/
structure SpeakerCfg where
  speaker : Option String
  voiceName : Option String
deriving DecidableEq

/-- The `speechConfig` value sent upstream: single-voice or multi-speaker. -/
inductive SpeechConfig where
  | single (voiceName : String)
  | multi (speakerVoiceConfigs : List (Option String × String))
deriving DecidableEq

/-- Handler lines building `speechConfig`:
`if (multiSpeaker && speakerConfigs.length > 0) { multiSpeakerVoiceConfig ... }
else { voiceConfig ... }`. -/
def buildSpeechConfig (multiSpeaker : Bool) (speakerConfigs : List SpeakerCfg)
    (voiceName : String) : SpeechConfig :=
  if multiSpeaker ∧ 0 < speakerConfigs.length then
    .multi (speakerConfigs.map fun cfg => (cfg.speaker, jsOrStr cfg.voiceName "Kore"))
  else
    .single voiceName

/-- Whether a `SpeechConfig` is the multi-speaker form. -/
def SpeechConfig.isMulti : SpeechConfig → Bool
  | .single _ => false
  | .multi _ => true

/-! ## Orchestrator: `tryModelsSequentially` -/

/-- Parse outcome of `await response.json()` followed by the optional-chain
`data?.candidates?.[0]?.content?.parts?.[0]?.inlineData?.data`:
`parseError msg` = `json()` threw (caught by the surrounding `catch`),
`noAudio` = parsed but the audio field is missing, `audio d` = field present. -/
inductive JsonOutcome where
  | parseError (msg : String)
  | noAudio
  | audio (data : String)
deriving DecidableEq

/-- Outcome of one `fetch` call: either the fetch itself threw
(`transportError`, caught by the surrounding `catch`), or a response arrived,
carrying its HTTP status, the raw `retry-after` header, the `Date.now()` at
processing time, the error-body text (`await response.text()`), and the JSON
outcome used on the success path. -/
inductive FetchOutcome where
  | transportError (msg : String)
  | response (status : Nat) (retryAfterHdr : RetryAfterHeader) (nowMs : Int)
      (body : String) (json : JsonOutcome)
deriving DecidableEq

/-- `response.ok`: status in the 2xx range. -/
def isOk (status : Nat) : Bool := decide (200 ≤ status ∧ status < 300)

/-- The audio data extracted by the success path, if this outcome is an OK
response whose payload carries the inline audio field; `none` otherwise. -/
def audioOf : FetchOutcome → Option String
  | .response status _ _ _ (.audio d) => if isOk status then some d else none
  | _ => none

/-- The HTTP status recorded by `lastStatus = response.status` (no update on
a transport error). -/
def statusOf : FetchOutcome → Option Nat
  | .response status _ _ _ _ => some status
  | .transportError _ => none

/-- The parsed retry-delay hint this outcome contributes to
`minRetryAfterSec`: only a 429 response with a finite
`parseRetryAfterSeconds` result contributes. -/
def hintOf : FetchOutcome → Option ℚ
  | .response status hdr nowMs _ _ =>
    if status = 429 then parseRetryAfterSeconds hdr nowMs else none
  | .transportError _ => none

/-- The body text of a response outcome (`""` for a transport error). -/
def bodyOf : FetchOutcome → String
  | .response _ _ _ body _ => body
  | .transportError _ => ""

/-- Accumulators of one `tryModelsSequentially` call:
`minRetryAfterSec` (`none` = `Infinity`), `lastErr`, `lastStatus`. -/
structure OrchState where
  minRetryAfter : Option ℚ
  lastErr : Option String
  lastStatus : Option Nat
deriving DecidableEq

/-- `let minRetryAfterSec = Infinity; let lastErr = null; let lastStatus = null`. -/
def initOrchState : OrchState := ⟨none, none, none⟩

/-- `minRetryAfterSec = Math.min(minRetryAfterSec, ra)` guarded by
`Number.isFinite(ra)` — starting from `Infinity` (`none`). -/
def minCombine (cur incoming : Option ℚ) : Option ℚ :=
  match incoming with
  | none => cur
  | some r =>
    match cur with
    | none => some r
    | some c => some (min c r)

/-- The message of
`new Error(\x60Gemini API error ${status} on ${m}: ${truncate(errText, 500)}\x60)`. -/
def apiErrMsg (m : String) (status : Nat) (body : String) : String :=
  "Gemini API error " ++ toString status ++ " on " ++ m ++ ": " ++ truncate body 500

/-- One iteration of the inner attempt loop, processing one fetch outcome for
model `m`.  Returns `(audio-if-success, updated accumulators)`.  `isLast` is
`attempt = perModelMaxRetries`; it only matters in the 429 arm, where
`lastErr` is set just before the break (on earlier attempts the code
`continue`s without touching `lastErr`).  In every other failure arm
`lastErr` is set on every attempt. -/
def processCall (m : String) (isLast : Bool) (st : OrchState) :
    FetchOutcome → Option String × OrchState
  | .transportError msg => (none, { st with lastErr := some msg })
  | .response status hdr nowMs body json =>
    let st := { st with lastStatus := some status }
    if isOk status then
      match json with
      | .audio d => (some d, st)
      | .noAudio =>
        (none, { st with lastErr := some ("No audio data in response from " ++ m) })
      | .parseError msg => (none, { st with lastErr := some msg })
    else if status = 429 then
      let st := { st with
        minRetryAfter := minCombine st.minRetryAfter (parseRetryAfterSeconds hdr nowMs) }
      if isLast then
        (none, { st with lastErr := some ("429 quota exceeded for model " ++ m) })
      else (none, st)
    else
      (none, { st with lastErr := some (apiErrMsg m status body) })

/-- The inner loop `for (let attempt = 0; attempt <= perModelMaxRetries; attempt++)`
for model `m`, consuming one oracle call per attempt starting at call index
`k`; `attemptsLeft` counts down from `perModelMaxRetries`.  Returns
`(success audio+model if any, accumulators, next call index)`. -/
def tryModelLoop (oracle : Nat → FetchOutcome) (m : String) :
    Nat → Nat → OrchState → Option (String × String) × OrchState × Nat
  | Nat.succ a, k, st =>
    match processCall m false st (oracle k) with
    | (some d, st') => (some (d, m), st', k + 1)
    | (none, st') => tryModelLoop oracle m a (k + 1) st'
  | 0, k, st =>
    match processCall m true st (oracle k) with
    | (some d, st') => (some (d, m), st', k + 1)
    | (none, st') => (none, st', k + 1)

/-- The outer loop `for (const m of candidates)`. -/
def tryCandidates (oracle : Nat → FetchOutcome) :
    List String → Nat → OrchState → Option (String × String) × OrchState × Nat
  | [], k, st => (none, st, k)
  | m :: ms, k, st =>
    match tryModelLoop oracle m perModelMaxRetries k st with
    | (some r, st', k') => (some r, st', k')
    | (none, st', k') => tryCandidates oracle ms k' st'

/-- The error object thrown by `tryModelsSequentially` when all models fail:
`message`, `e.status`, and the optional `e.retryAfterSeconds`. -/
structure OrchError where
  message : String
  status : Nat
  retryAfterSeconds : Option Int
deriving DecidableEq

/-- Result of one orchestration: the success return or one of the two throw
sites at the end of `tryModelsSequentially`. -/
inductive OrchOutcome where
  | success (audioBase64 modelUsed : String)
  | quotaExhausted (e : OrchError)
  | upstreamFailure (e : OrchError)
deriving DecidableEq

/-- `Math.max(1, Math.floor(minRetryAfterSec))`. -/
def retryAfterFloor (q : ℚ) : Int := max 1 (Int.floor q)

/-- `async function tryModelsSequentially({ text, model, ... })`, with the
network as `oracle` and the requested/primary model as `model`.  Returns the
outcome together with the total number of fetch calls issued. -/
def tryModelsSequentially (oracle : Nat → FetchOutcome) (model : String) :
    OrchOutcome × Nat :=
  let candidates := candidatesOf model
  match tryCandidates oracle candidates 0 initOrchState with
  | (some (d, m), _, k) => (.success d m, k)
  | (none, st, k) =>
    if st.minRetryAfter ≠ none ∨ st.lastStatus = some 429 then
      (.quotaExhausted
        ⟨"All TTS models quota-exceeded (429).", 429,
          st.minRetryAfter.map retryAfterFloor⟩, k)
    else
      (.upstreamFailure
        ⟨jsOrStr st.lastErr "TTS failed for all models.",
          jsOrNat st.lastStatus 502, none⟩, k)

/-! ## Handler: error mapping (the `catch` around `tryModelsSequentially`) -/

/-- The HTTP error response produced by the handler's `catch` block:
status code, machine-readable error kind, diagnostic details, optional
retry-after hint. -/
structure ErrResponse where
  statusCode : Nat
  errorKind : String
  details : String
  retryAfterSeconds : Option Int
deriving DecidableEq

/-- The handler's `catch (e)` block: `const status = e.status || 502;
if (status === 429) { 429 / quota_exceeded / retryAfterSeconds } else
{ 502 / tts_failed }`. -/
def handlerCatch (e : OrchError) : ErrResponse :=
  let status := jsOrNat (some e.status) 502
  if status = 429 then ⟨429, "quota_exceeded", e.message, e.retryAfterSeconds⟩
  else ⟨502, "tts_failed", e.message, none⟩

/-! ## Trace-level accumulator descriptions -/

/-- The fold of `minCombine` over the hints of calls `k, k+1, …, k+n-1`. -/
def minHintFrom (oracle : Nat → FetchOutcome) : Nat → Nat → Option ℚ → Option ℚ
  | _, 0, acc => acc
  | k, Nat.succ n, acc => minHintFrom oracle (k + 1) n (minCombine acc (hintOf (oracle k)))

/-- The last recorded HTTP status over calls `k, …, k+n-1` (transport errors
record nothing). -/
def lastStatusFrom (oracle : Nat → FetchOutcome) : Nat → Nat → Option Nat → Option Nat
  | _, 0, acc => acc
  | k, Nat.succ n, acc =>
    lastStatusFrom oracle (k + 1) n
      (match statusOf (oracle k) with | some s => some s | none => acc)

/-- The pure accumulator fold of one model's full (success-free) attempt
loop over calls `k, …, k+a`. -/
def foldModel (oracle : Nat → FetchOutcome) (m : String) :
    Nat → Nat → OrchState → OrchState
  | Nat.succ a, k, st => foldModel oracle m a (k + 1) (processCall m false st (oracle k)).2
  | 0, k, st => (processCall m true st (oracle k)).2

/-- The pure accumulator fold of a full (success-free) run over the whole
candidate list. -/
def foldCands (oracle : Nat → FetchOutcome) :
    List String → Nat → OrchState → OrchState
  | [], _, st => st
  | m :: ms, k, st =>
    foldCands oracle ms (k + (perModelMaxRetries + 1))
      (foldModel oracle m perModelMaxRetries k st)

/-! ## Concrete models and oracles for witnesses and counterexamples -/

/-- The first allowlist entry (candidate A in the scenarios). -/
def proModel : String := "models/gemini-2.5-pro-preview-tts"

/-- The second allowlist entry (candidate B in the scenarios). -/
def flashModel : String := "models/gemini-2.5-flash-preview-tts"

/-- Every call answers 429 with retry-after header "2" (the spec's
quota-exhaustion test). -/
def oracleQuota2 : Nat → FetchOutcome := fun _ =>
  .response 429 (.numeric 2) 0 "quota" .noAudio

/-- Every call answers HTTP 500 with body "boom". -/
def oracleHttp500 : Nat → FetchOutcome := fun _ =>
  .response 500 .absent 0 "boom" .noAudio

/-- Candidate A answers 429 without a header on all three attempts, then
candidate B answers HTTP 500 on all three attempts. -/
def oracleMixed429then500 : Nat → FetchOutcome := fun k =>
  if k < 3 then .response 429 .absent 0 "quota" .noAudio
  else .response 500 .absent 0 "boom" .noAudio

/-- The first call answers 429 with retry-after "2"; every later call
answers HTTP 500 with body "boom" (so both candidates' final responses are
500). -/
def oracleHint429then500 : Nat → FetchOutcome := fun k =>
  if k = 0 then .response 429 (.numeric 2) 0 "quota" .noAudio
  else .response 500 .absent 0 "boom" .noAudio

/-- Candidate A always answers 429; candidate B answers success with inline
audio on its first attempt. -/
def oracleARateLimitedThenOk : Nat → FetchOutcome := fun k =>
  if k < 3 then .response 429 .absent 0 "quota" .noAudio
  else .response 200 .absent 0 "" (.audio "QUJD")

/-- Every call immediately answers success with inline audio. -/
def oracleImmediateOk : Nat → FetchOutcome := fun _ =>
  .response 200 .absent 0 "" (.audio "QUJD")

/-! ## Step lemmas for the attempt loops -/

theorem processCall_fst (m : String) (L : Bool) (st : OrchState) (o : FetchOutcome) :
    (processCall m L st o).1 = audioOf o := by
  cases o with
  | transportError msg => rfl
  | response s hdr now body json =>
    by_cases hok : isOk s
    · cases json <;> simp [processCall, audioOf, hok]
    · by_cases h429 : s = 429
      · subst h429
        cases json <;> cases L <;>
          simp [processCall, audioOf, show isOk 429 = false from rfl]
      · cases json <;> cases L <;> simp [processCall, audioOf, hok, h429]

theorem processCall_min (m : String) (L : Bool) (st : OrchState) (o : FetchOutcome) :
    ((processCall m L st o).2).minRetryAfter =
      minCombine st.minRetryAfter (hintOf o) := by
  cases o with
  | transportError msg => cases h : st.minRetryAfter <;> simp [processCall, hintOf, minCombine, h]
  | response s hdr now body json =>
    by_cases hok : isOk s
    · have h429 : s ≠ 429 := by
        intro h; subst h; simp [isOk] at hok
      cases json <;>
        cases h : st.minRetryAfter <;>
          simp [processCall, hintOf, minCombine, hok, h429, h]
    · by_cases h429 : s = 429
      · subst h429
        cases json <;> cases L <;>
          simp [processCall, hintOf, show isOk 429 = false from rfl]
      · cases json <;>
          cases h : st.minRetryAfter <;>
            simp [processCall, hintOf, minCombine, hok, h429, h]

theorem processCall_status (m : String) (L : Bool) (st : OrchState) (o : FetchOutcome) :
    ((processCall m L st o).2).lastStatus =
      (match statusOf o with | some s => some s | none => st.lastStatus) := by
  cases o with
  | transportError msg => simp [processCall, statusOf]
  | response s hdr now body json =>
    by_cases hok : isOk s
    · cases json <;> simp [processCall, statusOf, hok]
    · by_cases h429 : s = 429
      · subst h429
        cases json <;> cases L <;>
          simp [processCall, statusOf, show isOk 429 = false from rfl]
      · cases json <;> cases L <;> simp [processCall, statusOf, hok, h429]

theorem tryModelLoop_zero (oracle : Nat → FetchOutcome) (m : String) (k : Nat)
    (st : OrchState) :
    tryModelLoop oracle m 0 k st =
      ((processCall m true st (oracle k)).1.map (fun d => (d, m)),
        (processCall m true st (oracle k)).2, k + 1) := by
  rcases hp : processCall m true st (oracle k) with ⟨fst, snd⟩
  cases fst <;> simp [tryModelLoop, hp]

theorem tryModelLoop_succ (oracle : Nat → FetchOutcome) (m : String) (a k : Nat)
    (st : OrchState) :
    tryModelLoop oracle m (a + 1) k st =
      (match (processCall m false st (oracle k)).1 with
        | some d => (some (d, m), (processCall m false st (oracle k)).2, k + 1)
        | none => tryModelLoop oracle m a (k + 1) (processCall m false st (oracle k)).2) := by
  rcases hp : processCall m false st (oracle k) with ⟨fst, snd⟩
  cases fst <;> simp [tryModelLoop, hp]

theorem tryModelLoop_consumes_le (oracle : Nat → FetchOutcome) (m : String) :
    ∀ (a k : Nat) (st : OrchState),
      (tryModelLoop oracle m a k st).2.2 ≤ k + a + 1 := by
  intro a
  induction a with
  | zero =>
    intro k st
    rw [tryModelLoop_zero]
  | succ a ih =>
    intro k st
    rw [tryModelLoop_succ]
    rcases h : (processCall m false st (oracle k)).1 with _ | d
    · simp only [h]
      exact (ih (k + 1) (processCall m false st (oracle k)).2).trans (by omega)
    · simp only [h]
      omega

theorem tryModelLoop_fail (oracle : Nat → FetchOutcome) (m : String) :
    ∀ (a k : Nat) (st : OrchState),
      (∀ j, j ≤ a → audioOf (oracle (k + j)) = none) →
      tryModelLoop oracle m a k st = (none, foldModel oracle m a k st, k + a + 1) := by
  intro a
  induction a with
  | zero =>
    intro k st h
    have h0 : audioOf (oracle k) = none := by simpa using h 0 (Nat.le_refl 0)
    rw [tryModelLoop_zero, processCall_fst, h0]
    rfl
  | succ a ih =>
    intro k st h
    have h0 : audioOf (oracle k) = none := by simpa using h 0 (Nat.zero_le _)
    rw [tryModelLoop_succ, processCall_fst, h0]
    have := ih (k + 1) (processCall m false st (oracle k)).2
      (fun j hj => by
        have := h (j + 1) (by omega)
        simpa [Nat.add_assoc, Nat.add_comm 1 j] using this)
    rw [this]
    rw [show k + 1 + a + 1 = k + (a + 1) + 1 from by omega]
    rfl

theorem tryModelLoop_success (oracle : Nat → FetchOutcome) (m : String) :
    ∀ (a i k : Nat) (st : OrchState) (d : String),
      i ≤ a → audioOf (oracle (k + i)) = some d →
      (∀ j, j < i → audioOf (oracle (k + j)) = none) →
      ∃ st', tryModelLoop oracle m a k st = (some (d, m), st', k + i + 1) := by
  intro a
  induction a with
  | zero =>
    intro i k st d hi hd _
    interval_cases i
    rw [tryModelLoop_zero, processCall_fst]
    simp only [Nat.add_zero] at hd
    rw [hd]
    exact ⟨(processCall m true st (oracle k)).2, rfl⟩
  | succ a ih =>
    intro i k st d hi hd hprev
    cases i with
    | zero =>
      rw [tryModelLoop_succ, processCall_fst]
      simp only [Nat.add_zero] at hd
      rw [hd]
      exact ⟨(processCall m false st (oracle k)).2, rfl⟩
    | succ i =>
      have h0 : audioOf (oracle k) = none := by simpa using hprev 0 (Nat.succ_pos i)
      rw [tryModelLoop_succ, processCall_fst, h0]
      obtain ⟨st', hst'⟩ := ih i (k + 1) (processCall m false st (oracle k)).2 d
        (by omega)
        (by have : k + 1 + i = k + (i + 1) := by omega
            rw [this]; exact hd)
        (fun j hj => by
          have := hprev (j + 1) (by omega)
          have e : k + 1 + j = k + (j + 1) := by omega
          rw [e]; exact this)
      refine ⟨st', ?_⟩
      rw [hst']
      have : k + 1 + i + 1 = k + (i + 1) + 1 := by omega
      rw [this]

/-! ## Candidate-level run lemmas -/

theorem tryCandidates_fail (oracle : Nat → FetchOutcome) :
    ∀ (C : List String) (k : Nat) (st : OrchState),
      (∀ j, j < 3 * C.length → audioOf (oracle (k + j)) = none) →
      tryCandidates oracle C k st =
        (none, foldCands oracle C k st, k + 3 * C.length) := by
  intro C
  induction C with
  | nil => intro k st _; simp [tryCandidates, foldCands]
  | cons m ms ih =>
    intro k st h
    have hm := tryModelLoop_fail oracle m perModelMaxRetries k st
      (fun j hj => h j (by simp [perModelMaxRetries] at hj ⊢; omega))
    have step : tryCandidates oracle (m :: ms) k st =
        tryCandidates oracle ms (k + perModelMaxRetries + 1)
          (foldModel oracle m perModelMaxRetries k st) := by
      simp [tryCandidates, hm]
    rw [step]
    have hrest := ih (k + perModelMaxRetries + 1)
      (foldModel oracle m perModelMaxRetries k st)
      (fun j hj => by
        have := h (j + (perModelMaxRetries + 1))
          (by simp [perModelMaxRetries] at hj ⊢; omega)
        have e : k + (j + (perModelMaxRetries + 1)) = k + perModelMaxRetries + 1 + j := by
          omega
        rw [e] at this
        exact this)
    rw [hrest]
    have e2 : k + perModelMaxRetries + 1 + 3 * ms.length = k + 3 * (ms.length + 1) := by
      simp [perModelMaxRetries]; omega
    rw [e2]
    have e3 : foldCands oracle (m :: ms) k st =
        foldCands oracle ms (k + (perModelMaxRetries + 1))
          (foldModel oracle m perModelMaxRetries k st) := rfl
    rw [e3, show k + perModelMaxRetries + 1 = k + (perModelMaxRetries + 1) from by omega]
    simp

theorem tryCandidates_success (oracle : Nat → FetchOutcome) :
    ∀ (C : List String) (i k : Nat) (st : OrchState) (d : String),
      i < 3 * C.length → audioOf (oracle (k + i)) = some d →
      (∀ j, j < i → audioOf (oracle (k + j)) = none) →
      ∃ mu st', mu ∈ C ∧
        tryCandidates oracle C k st = (some (d, mu), st', k + i + 1) := by
  intro C
  induction C with
  | nil => intro i k st d hi; simp at hi
  | cons m ms ih =>
    intro i k st d hi hd hprev
    by_cases hsmall : i ≤ perModelMaxRetries
    · obtain ⟨st', hst'⟩ := tryModelLoop_success oracle m perModelMaxRetries i k st d
        hsmall hd hprev
      refine ⟨m, st', List.mem_cons_self m ms, ?_⟩
      simp [tryCandidates, hst']
    · have hbig : perModelMaxRetries + 1 ≤ i := by omega
      have hm := tryModelLoop_fail oracle m perModelMaxRetries k st
        (fun j hj => hprev j (by omega))
      have step : tryCandidates oracle (m :: ms) k st =
          tryCandidates oracle ms (k + perModelMaxRetries + 1)
            (foldModel oracle m perModelMaxRetries k st) := by
        simp [tryCandidates, hm]
      rw [step]
      obtain ⟨mu, st', hmu, hrest⟩ := ih (i - (perModelMaxRetries + 1))
        (k + perModelMaxRetries + 1) (foldModel oracle m perModelMaxRetries k st) d
        (by simp only [perModelMaxRetries, List.length_cons] at hi hbig ⊢; omega)
        (by have e : k + perModelMaxRetries + 1 + (i - (perModelMaxRetries + 1)) = k + i := by
              simp only [perModelMaxRetries] at hbig ⊢; omega
            rw [e]; exact hd)
        (fun j hj => by
          have := hprev (j + (perModelMaxRetries + 1)) (by omega)
          have e : k + (j + (perModelMaxRetries + 1)) = k + perModelMaxRetries + 1 + j := by
            omega
          rw [e] at this
          exact this)
      refine ⟨mu, st', List.mem_cons_of_mem m hmu, ?_⟩
      rw [hrest,
        show k + perModelMaxRetries + 1 + (i - (perModelMaxRetries + 1)) + 1 = k + i + 1
          from by omega]

/-! ## Accumulator characterizations over the call trace -/

theorem minCombine_eq_none (a b : Option ℚ) :
    minCombine a b = none ↔ a = none ∧ b = none := by
  cases a <;> cases b <;> simp [minCombine]

theorem minHintFrom_add (oracle : Nat → FetchOutcome) :
    ∀ (n1 n2 k : Nat) (acc : Option ℚ),
      minHintFrom oracle k (n1 + n2) acc =
        minHintFrom oracle (k + n1) n2 (minHintFrom oracle k n1 acc) := by
  intro n1
  induction n1 with
  | zero => intro n2 k acc; simp [minHintFrom]
  | succ n1 ih =>
    intro n2 k acc
    have e : n1 + 1 + n2 = (n1 + n2) + 1 := by omega
    rw [e]
    show minHintFrom oracle (k + 1) (n1 + n2) (minCombine acc (hintOf (oracle k))) = _
    rw [ih n2 (k + 1) (minCombine acc (hintOf (oracle k)))]
    have e2 : k + 1 + n1 = k + (n1 + 1) := by omega
    rw [e2]
    rfl

theorem minHintFrom_eq_none (oracle : Nat → FetchOutcome) :
    ∀ (n k : Nat) (acc : Option ℚ),
      minHintFrom oracle k n acc = none ↔
        (acc = none ∧ ∀ j, j < n → hintOf (oracle (k + j)) = none) := by
  intro n
  induction n with
  | zero => intro k acc; simp [minHintFrom]
  | succ n ih =>
    intro k acc
    show minHintFrom oracle (k + 1) n (minCombine acc (hintOf (oracle k))) = none ↔ _
    rw [ih (k + 1) (minCombine acc (hintOf (oracle k))), minCombine_eq_none]
    constructor
    · rintro ⟨⟨ha, h0⟩, hrest⟩
      refine ⟨ha, fun j hj => ?_⟩
      cases j with
      | zero => simpa using h0
      | succ j =>
        have := hrest j (by omega)
        have e : k + 1 + j = k + (j + 1) := by omega
        rw [e] at this
        exact this
    · rintro ⟨ha, hall⟩
      refine ⟨⟨ha, by simpa using hall 0 (Nat.succ_pos n)⟩, fun j hj => ?_⟩
      have := hall (j + 1) (by omega)
      have e : k + (j + 1) = k + 1 + j := by omega
      rw [e] at this
      exact this

theorem foldModel_min (oracle : Nat → FetchOutcome) (m : String) :
    ∀ (a k : Nat) (st : OrchState),
      (foldModel oracle m a k st).minRetryAfter =
        minHintFrom oracle k (a + 1) st.minRetryAfter := by
  intro a
  induction a with
  | zero =>
    intro k st
    show ((processCall m true st (oracle k)).2).minRetryAfter = _
    rw [processCall_min]
    rfl
  | succ a ih =>
    intro k st
    show (foldModel oracle m a (k + 1) (processCall m false st (oracle k)).2).minRetryAfter = _
    rw [ih (k + 1) (processCall m false st (oracle k)).2, processCall_min]
    rfl

theorem lastStatusFrom_add (oracle : Nat → FetchOutcome) :
    ∀ (n1 n2 k : Nat) (acc : Option Nat),
      lastStatusFrom oracle k (n1 + n2) acc =
        lastStatusFrom oracle (k + n1) n2 (lastStatusFrom oracle k n1 acc) := by
  intro n1
  induction n1 with
  | zero => intro n2 k acc; simp [lastStatusFrom]
  | succ n1 ih =>
    intro n2 k acc
    have e : n1 + 1 + n2 = (n1 + n2) + 1 := by omega
    rw [e]
    show lastStatusFrom oracle (k + 1) (n1 + n2)
        (match statusOf (oracle k) with | some s => some s | none => acc) = _
    rw [ih n2 (k + 1)]
    have e2 : k + 1 + n1 = k + (n1 + 1) := by omega
    rw [e2]
    rfl

theorem foldModel_status (oracle : Nat → FetchOutcome) (m : String) :
    ∀ (a k : Nat) (st : OrchState),
      (foldModel oracle m a k st).lastStatus =
        lastStatusFrom oracle k (a + 1) st.lastStatus := by
  intro a
  induction a with
  | zero =>
    intro k st
    show ((processCall m true st (oracle k)).2).lastStatus = _
    rw [processCall_status]
    rfl
  | succ a ih =>
    intro k st
    show (foldModel oracle m a (k + 1) (processCall m false st (oracle k)).2).lastStatus = _
    rw [ih (k + 1) (processCall m false st (oracle k)).2, processCall_status]
    rfl

theorem foldCands_min (oracle : Nat → FetchOutcome) :
    ∀ (C : List String) (k : Nat) (st : OrchState),
      (foldCands oracle C k st).minRetryAfter =
        minHintFrom oracle k (3 * C.length) st.minRetryAfter := by
  intro C
  induction C with
  | nil => intro k st; simp [foldCands, minHintFrom]
  | cons m ms ih =>
    intro k st
    show (foldCands oracle ms (k + (perModelMaxRetries + 1))
        (foldModel oracle m perModelMaxRetries k st)).minRetryAfter = _
    rw [ih (k + (perModelMaxRetries + 1)) (foldModel oracle m perModelMaxRetries k st),
      foldModel_min]
    have e : 3 * (m :: ms).length = (perModelMaxRetries + 1) + 3 * ms.length := by
      simp only [perModelMaxRetries, List.length_cons]; omega
    conv_rhs => rw [e, minHintFrom_add]

theorem foldCands_status (oracle : Nat → FetchOutcome) :
    ∀ (C : List String) (k : Nat) (st : OrchState),
      (foldCands oracle C k st).lastStatus =
        lastStatusFrom oracle k (3 * C.length) st.lastStatus := by
  intro C
  induction C with
  | nil => intro k st; simp [foldCands, lastStatusFrom]
  | cons m ms ih =>
    intro k st
    show (foldCands oracle ms (k + (perModelMaxRetries + 1))
        (foldModel oracle m perModelMaxRetries k st)).lastStatus = _
    rw [ih (k + (perModelMaxRetries + 1)) (foldModel oracle m perModelMaxRetries k st),
      foldModel_status]
    have e : 3 * (m :: ms).length = (perModelMaxRetries + 1) + 3 * ms.length := by
      simp only [perModelMaxRetries, List.length_cons]; omega
    conv_rhs => rw [e, lastStatusFrom_add]

theorem foldModel_last (oracle : Nat → FetchOutcome) (m : String) :
    ∀ (a k : Nat) (st : OrchState),
      ∃ st2, foldModel oracle m a k st = (processCall m true st2 (oracle (k + a))).2 := by
  intro a
  induction a with
  | zero => intro k st; exact ⟨st, rfl⟩
  | succ a ih =>
    intro k st
    obtain ⟨st2, h⟩ := ih (k + 1) (processCall m false st (oracle k)).2
    refine ⟨st2, ?_⟩
    show foldModel oracle m a (k + 1) (processCall m false st (oracle k)).2 = _
    rw [h, show k + 1 + a = k + (a + 1) from by omega]

theorem foldCands_last (oracle : Nat → FetchOutcome) :
    ∀ (C : List String) (k : Nat) (st : OrchState), C ≠ [] →
      ∃ st2, foldCands oracle C k st =
        (processCall (C.getLastD "") true st2 (oracle (k + 3 * C.length - 1))).2 := by
  intro C
  induction C with
  | nil => intro k st h; exact absurd rfl h
  | cons m ms ih =>
    intro k st _
    by_cases hne : ms = []
    · subst hne
      obtain ⟨st2, h⟩ := foldModel_last oracle m perModelMaxRetries k st
      refine ⟨st2, ?_⟩
      show foldModel oracle m perModelMaxRetries k st = _
      rw [h]
      have e : k + perModelMaxRetries = k + 3 * ([m] : List String).length - 1 := by
        simp only [perModelMaxRetries, List.length_cons, List.length_nil]; omega
      rw [e]
      rfl
    · obtain ⟨st2, h⟩ := ih (k + (perModelMaxRetries + 1))
        (foldModel oracle m perModelMaxRetries k st) hne
      refine ⟨st2, ?_⟩
      show foldCands oracle ms (k + (perModelMaxRetries + 1))
        (foldModel oracle m perModelMaxRetries k st) = _
      rw [h]
      have e1 : k + (perModelMaxRetries + 1) + 3 * ms.length - 1 =
          k + 3 * (m :: ms).length - 1 := by
        simp only [perModelMaxRetries, List.length_cons]; omega
      have e2 : (ms.getLastD "") = ((m :: ms).getLastD "") := by
        obtain ⟨m2, ms2, hms⟩ := List.exists_cons_of_ne_nil hne
        subst hms
        rw [List.getLastD_eq_getLast?, List.getLastD_eq_getLast?,
          List.getLast?_cons_cons]
      rw [e1, e2]

theorem statusOf_inv (o : FetchOutcome) (s : Nat) (h : statusOf o = some s) :
    ∃ hdr now body json, o = .response s hdr now body json := by
  cases o with
  | transportError msg => simp [statusOf] at h
  | response s2 hdr now body json =>
    simp [statusOf] at h
    exact ⟨hdr, now, body, json, by rw [h]⟩


/-! ## Byte-layout helper lemmas -/

theorem getD_drop (l : List Nat) (n i d : Nat) :
    (l.drop n).getD i d = l.getD (n + i) d := by
  simp [List.getD_eq_getElem?_getD, List.getElem?_drop]

theorem readU32LE_drop (l : List Nat) (off : Nat) :
    readU32LE l off = readU32LE (l.drop off) 0 := by
  simp [readU32LE, getD_drop]

theorem readU16LE_drop (l : List Nat) (off : Nat) :
    readU16LE l off = readU16LE (l.drop off) 0 := by
  simp [readU16LE, getD_drop]

theorem readU32LE_u32le (n : Nat) (rest : List Nat) (h : n < 4294967296) :
    readU32LE (u32le n ++ rest) 0 = n := by
  show n % 256 + 256 * (n / 256 % 256) + 65536 * (n / 65536 % 256) +
    16777216 * (n / 16777216 % 256) = n
  omega

theorem readU16LE_u16le (n : Nat) (rest : List Nat) (h : n < 65536) :
    readU16LE (u16le n ++ rest) 0 = n := by
  show n % 256 + 256 * (n / 256 % 256) = n
  omega

/-! ## Claim theorems -/

set_option maxHeartbeats 3000000 in
/-- C2: for every byte sequence and valid positive (sampleRate, channels,
bitsPerSample) — in range for the 16/32-bit header fields, with the bit
depth a whole number of bytes — `pcmToWav` returns a buffer of length
`44 + length rawSamples` whose 44-byte little-endian header matches the
specified layout field for field ("RIFF", chunk size `36 + payloadLength`,
"WAVE", "fmt ", subchunk1 size 16, audio format 1, channel count, sample
rate, byte rate `sampleRate*channels*bitsPerSample/8`, block alignment
`channels*bitsPerSample/8`, bits per sample, "data", subchunk2 size =
payload length), whose payload from offset 44 is a verbatim copy of the
input, and decoding the header fields yields back the input parameters;
an empty payload yields a 44-byte buffer with subchunk2 size 0. -/
theorem pcmToWav_layout (pcm : List Nat) (sampleRate channels bitsPerSample : Nat)
    (hsr : 0 < sampleRate) (hch : 0 < channels) (hbs : 0 < bitsPerSample)
    (hbyte8 : bitsPerSample % 8 = 0)
    (hsr32 : sampleRate < 4294967296) (hch16 : channels < 65536)
    (hbs16 : bitsPerSample < 65536)
    (hbyte : sampleRate * channels * bitsPerSample / 8 < 4294967296)
    (hblk : channels * bitsPerSample / 8 < 65536)
    (hlen : 36 + pcm.length < 4294967296) :
    (pcmToWav pcm sampleRate channels bitsPerSample).length = 44 + pcm.length ∧
    (pcmToWav pcm sampleRate channels bitsPerSample).take 4 = [82, 73, 70, 70] ∧
    readU32LE (pcmToWav pcm sampleRate channels bitsPerSample) 4 = 36 + pcm.length ∧
    ((pcmToWav pcm sampleRate channels bitsPerSample).drop 8).take 4 = [87, 65, 86, 69] ∧
    ((pcmToWav pcm sampleRate channels bitsPerSample).drop 12).take 4 = [102, 109, 116, 32] ∧
    readU32LE (pcmToWav pcm sampleRate channels bitsPerSample) 16 = 16 ∧
    readU16LE (pcmToWav pcm sampleRate channels bitsPerSample) 20 = 1 ∧
    readU16LE (pcmToWav pcm sampleRate channels bitsPerSample) 22 = channels ∧
    readU32LE (pcmToWav pcm sampleRate channels bitsPerSample) 24 = sampleRate ∧
    readU32LE (pcmToWav pcm sampleRate channels bitsPerSample) 28 =
      sampleRate * channels * bitsPerSample / 8 ∧
    readU16LE (pcmToWav pcm sampleRate channels bitsPerSample) 32 =
      channels * bitsPerSample / 8 ∧
    readU16LE (pcmToWav pcm sampleRate channels bitsPerSample) 34 = bitsPerSample ∧
    ((pcmToWav pcm sampleRate channels bitsPerSample).drop 36).take 4 = [100, 97, 116, 97] ∧
    readU32LE (pcmToWav pcm sampleRate channels bitsPerSample) 40 = pcm.length ∧
    (pcmToWav pcm sampleRate channels bitsPerSample).drop 44 = pcm ∧
    (pcm = [] → (pcmToWav pcm sampleRate channels bitsPerSample).length = 44 ∧
      readU32LE (pcmToWav pcm sampleRate channels bitsPerSample) 40 = 0) := by
  have hLen : (pcmToWav pcm sampleRate channels bitsPerSample).length = 44 + pcm.length := by
    simp [pcmToWav, u32le, u16le]
    omega
  have hChunk : readU32LE (pcmToWav pcm sampleRate channels bitsPerSample) 4 =
      36 + pcm.length := by
    rw [readU32LE_drop]
    exact readU32LE_u32le (36 + pcm.length) _ hlen
  have hSub1 : readU32LE (pcmToWav pcm sampleRate channels bitsPerSample) 16 = 16 := by
    rw [readU32LE_drop]
    exact readU32LE_u32le 16 _ (by omega)
  have hFmt : readU16LE (pcmToWav pcm sampleRate channels bitsPerSample) 20 = 1 := by
    rw [readU16LE_drop]
    exact readU16LE_u16le 1 _ (by omega)
  have hCh : readU16LE (pcmToWav pcm sampleRate channels bitsPerSample) 22 = channels := by
    rw [readU16LE_drop]
    exact readU16LE_u16le channels _ hch16
  have hSr : readU32LE (pcmToWav pcm sampleRate channels bitsPerSample) 24 = sampleRate := by
    rw [readU32LE_drop]
    exact readU32LE_u32le sampleRate _ hsr32
  have hBr : readU32LE (pcmToWav pcm sampleRate channels bitsPerSample) 28 =
      sampleRate * channels * bitsPerSample / 8 := by
    rw [readU32LE_drop]
    exact readU32LE_u32le (sampleRate * channels * bitsPerSample / 8) _ hbyte
  have hBlk : readU16LE (pcmToWav pcm sampleRate channels bitsPerSample) 32 =
      channels * bitsPerSample / 8 := by
    rw [readU16LE_drop]
    exact readU16LE_u16le (channels * bitsPerSample / 8) _ hblk
  have hBs : readU16LE (pcmToWav pcm sampleRate channels bitsPerSample) 34 =
      bitsPerSample := by
    rw [readU16LE_drop]
    exact readU16LE_u16le bitsPerSample _ hbs16
  have hSub2 : readU32LE (pcmToWav pcm sampleRate channels bitsPerSample) 40 =
      pcm.length := by
    rw [readU32LE_drop]
    exact readU32LE_u32le pcm.length _ (by omega)
  refine ⟨hLen, rfl, hChunk, rfl, rfl, hSub1, hFmt, hCh, hSr, hBr, hBlk, hBs,
    rfl, hSub2, rfl, ?_⟩
  intro h
  subst h
  exact ⟨by simpa using hLen, by simpa using hSub2⟩

/-- C2 witness: the layout theorem applied to the concrete input
`pcm = [1, 2]` with the source's default parameters (24000 Hz, 1 channel,
16 bits). -/
theorem pcmToWav_layout_witness :
    (pcmToWav [1, 2] 24000 1 16).length = 44 + 2 ∧
    readU32LE (pcmToWav [1, 2] 24000 1 16) 24 = 24000 ∧
    (pcmToWav [1, 2] 24000 1 16).drop 44 = [1, 2] := by
  obtain ⟨h1, _, _, _, _, _, _, _, h9, _, _, _, _, _, h15, _⟩ :=
    pcmToWav_layout [1, 2] 24000 1 16 (by decide) (by decide) (by decide) (by decide)
      (by decide) (by decide) (by decide) (by decide) (by decide) (by decide)
  exact ⟨h1, h9, h15⟩

/-- C3: for every attempt index and every jitter draw in [0, 250):
`computeDelay` (with the source's `baseDelayMs = 600`, `maxDelayMs = 8000`)
returns `serverHintSeconds × 1000` capped at 15000 ms whenever a positive
server hint is given (hint 5 gives exactly 5000 ms, hint 30 gives 15000 ms),
and with no hint returns `min (600 · 2^attempt + jitter) 8000` ms, so
attempt 0 gives a value in [600, 850) and attempt 4 a value ≤ 8000 ms. -/
theorem computeDelay_spec (attempt : Nat) (jitter : ℚ)
    (hj0 : 0 ≤ jitter) (hj : jitter < 250) :
    (∀ hint : ℚ, 0 < hint →
      computeDelay attempt baseDelayMs maxDelayMs (some hint) jitter =
        min (hint * 1000) 15000) ∧
    computeDelay attempt baseDelayMs maxDelayMs (some 5) jitter = 5000 ∧
    computeDelay attempt baseDelayMs maxDelayMs (some 30) jitter = 15000 ∧
    computeDelay attempt baseDelayMs maxDelayMs none jitter =
      min (600 * 2 ^ attempt + jitter) 8000 ∧
    600 ≤ computeDelay 0 baseDelayMs maxDelayMs none jitter ∧
    computeDelay 0 baseDelayMs maxDelayMs none jitter < 850 ∧
    computeDelay 4 baseDelayMs maxDelayMs none jitter ≤ 8000 := by
  have harm : ∀ hint : ℚ, 0 < hint →
      computeDelay attempt baseDelayMs maxDelayMs (some hint) jitter =
        min (hint * 1000) 15000 := by
    intro hint hpos
    simp only [computeDelay]
    rw [if_pos hpos]
  have hbase : ∀ a : Nat, computeDelay a baseDelayMs maxDelayMs none jitter =
      min (600 * 2 ^ a + jitter) 8000 := by
    intro a
    simp [computeDelay, baseDelayMs, maxDelayMs]
  have h0 : computeDelay 0 baseDelayMs maxDelayMs none jitter = 600 + jitter := by
    rw [hbase 0, pow_zero, mul_one]
    exact min_eq_left (by linarith)
  refine ⟨harm, ?_, ?_, hbase attempt, ?_, ?_, ?_⟩
  · rw [harm 5 (by norm_num)]
    norm_num [min_def]
  · rw [harm 30 (by norm_num)]
    norm_num [min_def]
  · rw [h0]; linarith
  · rw [h0]; linarith
  · rw [hbase 4]
    exact min_le_right _ _

/-- C3 witness: the backoff theorem applied at attempt 0 and attempt 4 with
jitter 0. -/
theorem computeDelay_spec_witness :
    (0 : ℚ) ≤ 0 ∧ computeDelay 0 baseDelayMs maxDelayMs (some 5) 0 = 5000 ∧
      computeDelay 4 baseDelayMs maxDelayMs none 0 ≤ 8000 :=
  ⟨le_refl 0, (computeDelay_spec 0 0 (le_refl 0) (by norm_num)).2.1,
    (computeDelay_spec 4 0 (le_refl 0) (by norm_num)).2.2.2.2.2.2⟩

/-- C7: `parseRetryAfterSeconds` handles both forms of the retry-after
header: a header that is a (finite) number of seconds yields that number,
and a header that is an HTTP date in the future yields the number of seconds
from now until that date (rounded up, `Math.ceil((dateMs - now)/1000)`); in
particular a date exactly `k > 0` whole seconds in the future yields `k`. -/
theorem parseRetryAfterSeconds_spec :
    (∀ (n : ℚ) (nowMs : Int), parseRetryAfterSeconds (.numeric n) nowMs = some n) ∧
    (∀ (dateMs nowMs : Int), nowMs < dateMs →
      parseRetryAfterSeconds (.httpDate dateMs) nowMs =
        some ((Int.ceil ((((dateMs - nowMs) : Int) : ℚ) / 1000) : Int) : ℚ)) ∧
    (∀ (nowMs : Int) (k : Nat), 0 < k →
      parseRetryAfterSeconds (.httpDate (nowMs + 1000 * (k : Int))) nowMs =
        some (k : ℚ)) := by
  have hdate : ∀ (dateMs nowMs : Int), nowMs < dateMs →
      parseRetryAfterSeconds (.httpDate dateMs) nowMs =
        some ((Int.ceil ((((dateMs - nowMs) : Int) : ℚ) / 1000) : Int) : ℚ) := by
    intro dateMs nowMs h
    have hq : (0 : ℚ) < (((dateMs - nowMs) : Int) : ℚ) / 1000 := by
      apply div_pos _ (by norm_num)
      exact_mod_cast Int.sub_pos.mpr h
    have hpos : 0 < Int.ceil ((((dateMs - nowMs) : Int) : ℚ) / 1000) :=
      Int.ceil_pos.mpr hq
    simp only [parseRetryAfterSeconds]
    rw [if_pos hpos]
  refine ⟨fun n nowMs => rfl, hdate, ?_⟩
  intro nowMs k hk
  have hlt : nowMs < nowMs + 1000 * (k : Int) := by omega
  rw [hdate _ _ hlt]
  have he : (((nowMs + 1000 * (k : Int) - nowMs) : Int) : ℚ) / 1000 = (k : ℚ) := by
    push_cast
    ring_nf
  rw [he]
  norm_num

/-- C7 witness: a header that is the integer 7, and a date header 2000 ms in
the future (2 whole seconds), both parsed through the theorem. -/
theorem parseRetryAfterSeconds_spec_witness :
    parseRetryAfterSeconds (.numeric 7) 0 = some 7 ∧
      parseRetryAfterSeconds (.httpDate 2000) 0 = some 2 := by
  refine ⟨parseRetryAfterSeconds_spec.1 7 0, ?_⟩
  have h := parseRetryAfterSeconds_spec.2.2 0 2 (by norm_num)
  simpa using h

/-- C8: exactly one voice-selection mode produces the `speechConfig`: the
multi-speaker configuration is used if and only if multi-speaker is
requested and the speaker list is non-empty; a multi-speaker request with an
empty speaker list falls back to single-voice mode. -/
theorem buildSpeechConfig_modes (multiSpeaker : Bool) (speakerConfigs : List SpeakerCfg)
    (voiceName : String) :
    ((buildSpeechConfig multiSpeaker speakerConfigs voiceName).isMulti = true ↔
      (multiSpeaker = true ∧ speakerConfigs ≠ [])) ∧
    (¬(multiSpeaker = true ∧ speakerConfigs ≠ []) →
      buildSpeechConfig multiSpeaker speakerConfigs voiceName = .single voiceName) ∧
    (multiSpeaker = true → speakerConfigs = [] →
      buildSpeechConfig multiSpeaker speakerConfigs voiceName = .single voiceName) := by
  by_cases h : multiSpeaker = true ∧ 0 < speakerConfigs.length
  · have hne : speakerConfigs ≠ [] := List.length_pos.mp h.2
    refine ⟨?_, ?_, ?_⟩
    · simp [buildSpeechConfig, h, SpeechConfig.isMulti, h.1, hne]
    · intro hc; exact absurd ⟨h.1, hne⟩ hc
    · intro _ hnil; exact absurd hnil hne
  · have hps : buildSpeechConfig multiSpeaker speakerConfigs voiceName = .single voiceName := by
      simp [buildSpeechConfig, h]
    refine ⟨?_, fun _ => hps, fun _ _ => hps⟩
    rw [hps]
    simp [SpeechConfig.isMulti]
    intro hms
    by_contra hne
    exact h ⟨hms, List.length_pos.mpr hne⟩

/-- C8 witness: a multi-speaker request with an empty speaker list falls
back to the single-voice configuration, via the theorem. -/
theorem buildSpeechConfig_modes_witness :
    buildSpeechConfig true [] "Kore" = .single "Kore" :=
  (buildSpeechConfig_modes true [] "Kore").2.2 rfl rfl

/-- C9: for every requested model string (and any value of the
`GEMINI_TTS_MODEL` environment variable), the candidate list is non-empty,
has no duplicates, starts with the requested model when it is in the
allowlist (otherwise the default model), and its tail is the remaining
allowlist members in their fixed order (a sublist of the allowlist). -/
theorem candidatesOf_spec (env : Option String) (requestedModel : String) :
    candidatesOf (primaryModel env requestedModel) ≠ [] ∧
    (candidatesOf (primaryModel env requestedModel)).Nodup ∧
    (candidatesOf (primaryModel env requestedModel)).head? =
      some (if requestedModel ∈ TTS_MODELS then requestedModel
            else DEFAULT_TTS_MODEL env) ∧
    (candidatesOf (primaryModel env requestedModel)).tail =
      TTS_MODELS.filter (fun m => m != primaryModel env requestedModel) ∧
    List.Sublist ((candidatesOf (primaryModel env requestedModel)).tail) TTS_MODELS := by
  refine ⟨List.cons_ne_nil _ _, ?_, rfl, rfl, ?_⟩
  · apply List.nodup_cons.mpr
    constructor
    · intro hmem
      have := (List.mem_filter.mp hmem).2
      simp at this
    · exact List.Nodup.filter _ (by decide)
  · show List.Sublist (TTS_MODELS.filter (fun m => m != primaryModel env requestedModel))
      TTS_MODELS
    exact List.filter_sublist TTS_MODELS

/-! ## Dispatch lemmas for the final throw sites -/

theorem tryModelsSequentially_of_success (oracle : Nat → FetchOutcome) (model : String)
    (d m : String) (st : OrchState) (k : Nat)
    (h : tryCandidates oracle (candidatesOf model) 0 initOrchState = (some (d, m), st, k)) :
    tryModelsSequentially oracle model = (.success d m, k) := by
  simp only [tryModelsSequentially, h]

theorem tryModelsSequentially_of_fail_quota (oracle : Nat → FetchOutcome) (model : String)
    (st : OrchState) (k : Nat)
    (h : tryCandidates oracle (candidatesOf model) 0 initOrchState = (none, st, k))
    (hc : st.minRetryAfter ≠ none ∨ st.lastStatus = some 429) :
    tryModelsSequentially oracle model =
      (.quotaExhausted ⟨"All TTS models quota-exceeded (429).", 429,
        st.minRetryAfter.map retryAfterFloor⟩, k) := by
  simp only [tryModelsSequentially, h]
  rw [if_pos hc]

theorem tryModelsSequentially_of_fail_upstream (oracle : Nat → FetchOutcome) (model : String)
    (st : OrchState) (k : Nat)
    (h : tryCandidates oracle (candidatesOf model) 0 initOrchState = (none, st, k))
    (hc : ¬(st.minRetryAfter ≠ none ∨ st.lastStatus = some 429)) :
    tryModelsSequentially oracle model =
      (.upstreamFailure ⟨jsOrStr st.lastErr "TTS failed for all models.",
        jsOrNat st.lastStatus 502, none⟩, k) := by
  simp only [tryModelsSequentially, h]
  rw [if_neg hc]

/-- C5: the per-model attempt loop issues at most
`perModelMaxRetries + 1` network calls against a candidate before moving on
(for every oracle, model, start index and accumulator state); and in the
concrete scenario where candidate A (the pro model) always returns 429 and
candidate B succeeds on its first attempt, the orchestrator returns
`Success` with `modelUsed = B` after exactly `perModelMaxRetries + 1` calls
against A plus one call against B. -/
theorem tryModels_per_model_call_bound :
    (∀ (oracle : Nat → FetchOutcome) (m : String) (k : Nat) (st : OrchState),
      (tryModelLoop oracle m perModelMaxRetries k st).2.2 ≤ k + (perModelMaxRetries + 1)) ∧
    tryModelsSequentially oracleARateLimitedThenOk proModel =
      (.success "QUJD" flashModel, (perModelMaxRetries + 1) + 1) := by
  constructor
  · intro oracle m k st
    have := tryModelLoop_consumes_le oracle m perModelMaxRetries k st
    omega
  · decide

/-- C4: for every run, if the orchestrator returns `Success(d, m)` then the
last network call it made was the first one whose response is a success
status carrying the inline audio field `d`, and no further calls were made
after it; conversely the first such call (if reached within the candidate
budget) makes the orchestrator return `Success` immediately after it.  By
the shape of `OrchOutcome`, `success` is the only constructor carrying audio
data. -/
theorem tryModels_first_success (oracle : Nat → FetchOutcome) (model : String)
    (d m : String) :
    ((tryModelsSequentially oracle model).1 = .success d m →
      ∃ k, (tryModelsSequentially oracle model).2 = k + 1 ∧
        audioOf (oracle k) = some d ∧ ∀ j, j < k → audioOf (oracle j) = none) ∧
    (∀ k, k < 3 * (candidatesOf model).length → audioOf (oracle k) = some d →
      (∀ j, j < k → audioOf (oracle j) = none) →
      ∃ mu, mu ∈ candidatesOf model ∧
        tryModelsSequentially oracle model = (.success d mu, k + 1)) := by
  have hb : ∀ (d' : String) (k : Nat), k < 3 * (candidatesOf model).length →
      audioOf (oracle k) = some d' → (∀ j, j < k → audioOf (oracle j) = none) →
      ∃ mu, mu ∈ candidatesOf model ∧
        tryModelsSequentially oracle model = (.success d' mu, k + 1) := by
    intro d' k hk hd hprev
    obtain ⟨mu, st', hmu, htc⟩ := tryCandidates_success oracle (candidatesOf model) k 0
      initOrchState d' hk (by simpa using hd) (fun j hj => by simpa using hprev j hj)
    refine ⟨mu, hmu, ?_⟩
    have := tryModelsSequentially_of_success oracle model d' mu st' (0 + k + 1) htc
    simpa using this
  refine ⟨?_, hb d⟩
  intro hsucc
  by_cases hall : ∀ j, j < 3 * (candidatesOf model).length → audioOf (oracle j) = none
  · exfalso
    have htc := tryCandidates_fail oracle (candidatesOf model) 0 initOrchState
      (fun j hj => by simpa using hall j hj)
    by_cases hc : (foldCands oracle (candidatesOf model) 0 initOrchState).minRetryAfter ≠
        none ∨ (foldCands oracle (candidatesOf model) 0 initOrchState).lastStatus = some 429
    · have heq := tryModelsSequentially_of_fail_quota oracle model _ _ htc hc
      rw [heq] at hsucc
      simp at hsucc
    · have heq := tryModelsSequentially_of_fail_upstream oracle model _ _ htc hc
      rw [heq] at hsucc
      simp at hsucc
  · push_neg at hall
    obtain ⟨j0, hj0, hne0⟩ := hall
    have hex : ∃ j, (audioOf (oracle j)).isSome = true := by
      refine ⟨j0, ?_⟩
      rcases hA : audioOf (oracle j0) with _ | d0
      · exact absurd hA hne0
      · simp
    have hk0P := Nat.find_spec hex
    rcases hd0 : audioOf (oracle (Nat.find hex)) with _ | d0
    · rw [hd0] at hk0P; simp at hk0P
    have hmin : ∀ j, j < Nat.find hex → audioOf (oracle j) = none := by
      intro j hj
      have := Nat.find_min hex hj
      rcases hA : audioOf (oracle j) with _ | dj
      · rfl
      · rw [hA] at this; simp at this
    have hk0lt : Nat.find hex < 3 * (candidatesOf model).length := by
      have : Nat.find hex ≤ j0 := Nat.find_min' hex (by
        rcases hA : audioOf (oracle j0) with _ | d1
        · exact absurd hA hne0
        · simp)
      omega
    obtain ⟨mu, hmu, heq⟩ := hb d0 (Nat.find hex) hk0lt hd0 hmin
    rw [heq] at hsucc
    simp at hsucc
    refine ⟨Nat.find hex, by rw [heq], ?_, hmin⟩
    rw [hd0, hsucc.1]

/-- C4 witness: with an oracle that succeeds on the very first call, the
run returns that audio after exactly one call. -/
theorem tryModels_first_success_witness :
    ∃ mu, mu ∈ candidatesOf proModel ∧
      tryModelsSequentially oracleImmediateOk proModel = (.success "QUJD" mu, 0 + 1) :=
  (tryModels_first_success oracleImmediateOk proModel "QUJD" "").2 0 (by decide)
    (by decide) (fun j hj => absurd hj (Nat.not_lt_zero j))

theorem handlerCatch_429 (e : OrchError) (h : e.status = 429) :
    handlerCatch e = ⟨429, "quota_exceeded", e.message, e.retryAfterSeconds⟩ := by
  simp [handlerCatch, jsOrNat, h]

theorem handlerCatch_not429 (e : OrchError) (h429 : e.status ≠ 429) (h0 : e.status ≠ 0) :
    handlerCatch e = ⟨502, "tts_failed", e.message, none⟩ := by
  have hstat : jsOrNat (some e.status) 502 = e.status := by simp [jsOrNat, h0]
  simp [handlerCatch, hstat, h429]

/-- C10: whenever the orchestrator fails, the handler's `catch` block maps
the error to a fixed status and machine-readable kind: a `quotaExhausted`
error yields statusCode 429 with error kind "quota_exceeded" (carrying the
optional `retryAfterSeconds` hint), and an `upstreamFailure` error yields
statusCode 502 with error kind "tts_failed"; in both cases the body carries
the diagnostic message. -/
theorem handlerCatch_maps_orch_errors (oracle : Nat → FetchOutcome) (model : String) :
    (∀ e, (tryModelsSequentially oracle model).1 = .quotaExhausted e →
      handlerCatch e = ⟨429, "quota_exceeded", e.message, e.retryAfterSeconds⟩) ∧
    (∀ e, (tryModelsSequentially oracle model).1 = .upstreamFailure e →
      handlerCatch e = ⟨502, "tts_failed", e.message, none⟩) := by
  rcases htc : tryCandidates oracle (candidatesOf model) 0 initOrchState with ⟨res, st, k⟩
  rcases res with _ | ⟨d, m⟩
  · by_cases hc : st.minRetryAfter ≠ none ∨ st.lastStatus = some 429
    · have heq := tryModelsSequentially_of_fail_quota oracle model st k htc hc
      constructor
      · intro e he
        rw [heq] at he
        simp only at he
        injection he with h2
        subst h2
        exact handlerCatch_429 _ rfl
      · intro e he
        rw [heq] at he
        simp at he
    · have heq := tryModelsSequentially_of_fail_upstream oracle model st k htc hc
      push_neg at hc
      constructor
      · intro e he
        rw [heq] at he
        simp at he
      · intro e he
        rw [heq] at he
        simp only at he
        injection he with h2
        subst h2
        have hS : jsOrNat st.lastStatus 502 ≠ 429 ∧ jsOrNat st.lastStatus 502 ≠ 0 := by
          rcases hls : st.lastStatus with _ | s
          · simp [jsOrNat]
          · by_cases h0 : s = 0
            · subst h0; simp [jsOrNat]
            · have hs429 : s ≠ 429 := by
                intro h
                exact hc.2 (by rw [hls, h])
              simp [jsOrNat, h0, hs429]
        exact handlerCatch_not429 _ hS.1 hS.2
  · have heq := tryModelsSequentially_of_success oracle model d m st k htc
    constructor <;> intro e he <;> rw [heq] at he <;> simp at he

/-- C10 witness: the quota-exhaustion error produced by the all-429 run is
mapped to 429 / "quota_exceeded" carrying the 2-second hint. -/
theorem handlerCatch_maps_orch_errors_witness :
    handlerCatch ⟨"All TTS models quota-exceeded (429).", 429, some 2⟩ =
      ⟨429, "quota_exceeded", "All TTS models quota-exceeded (429).", some 2⟩ :=
  (handlerCatch_maps_orch_errors oracleQuota2 proModel).1
    ⟨"All TTS models quota-exceeded (429).", 429, some 2⟩ (by decide)

/-- C1 counterexample: candidate A's three attempts all receive a 429 (call
0's status is 429), candidate B's three attempts receive 500 — the run
exhausts all six calls without success, yet the orchestrator fails with
`upstreamFailure` (status 500), not `quotaExhausted`. -/
theorem tryModels_429_without_hint_not_quota :
    statusOf (oracleMixed429then500 0) = some 429 ∧
    tryModelsSequentially oracleMixed429then500 proModel =
      (.upstreamFailure ⟨apiErrMsg flashModel 500 "boom", 500, none⟩, 6) :=
  ⟨rfl, by decide⟩

/-- C1 (amended): for every run that exhausts all candidates without a
success — if any attempt received a 429 carrying a parseable retry-delay
hint, or the last HTTP status recorded during the run is 429, the
orchestrator fails with `quotaExhausted`, and carries
`max 1 ⌊minimum observed hint⌋` seconds when any hint was present;
otherwise (no hinted 429 and last recorded status not 429) it fails with
`upstreamFailure`.  The third clause ties the accumulator to the trace: no
hint was recorded exactly when no attempt's response was a 429 with a
parseable retry-after. -/
theorem tryModels_exhausted_classification (oracle : Nat → FetchOutcome) (model : String)
    (hN : ∀ j, j < 3 * (candidatesOf model).length → audioOf (oracle j) = none) :
    ((minHintFrom oracle 0 (3 * (candidatesOf model).length) none ≠ none ∨
        lastStatusFrom oracle 0 (3 * (candidatesOf model).length) none = some 429) →
      (tryModelsSequentially oracle model).1 =
        .quotaExhausted ⟨"All TTS models quota-exceeded (429).", 429,
          (minHintFrom oracle 0 (3 * (candidatesOf model).length) none).map
            retryAfterFloor⟩) ∧
    ((minHintFrom oracle 0 (3 * (candidatesOf model).length) none = none ∧
        lastStatusFrom oracle 0 (3 * (candidatesOf model).length) none ≠ some 429) →
      ∃ msg s, (tryModelsSequentially oracle model).1 = .upstreamFailure ⟨msg, s, none⟩) ∧
    (minHintFrom oracle 0 (3 * (candidatesOf model).length) none = none ↔
      ∀ j, j < 3 * (candidatesOf model).length → hintOf (oracle j) = none) := by
  have htc := tryCandidates_fail oracle (candidatesOf model) 0 initOrchState
    (fun j hj => by simpa using hN j (by simpa using hj))
  have hmin : (foldCands oracle (candidatesOf model) 0 initOrchState).minRetryAfter =
      minHintFrom oracle 0 (3 * (candidatesOf model).length) none := by
    rw [foldCands_min]
    rfl
  have hstat : (foldCands oracle (candidatesOf model) 0 initOrchState).lastStatus =
      lastStatusFrom oracle 0 (3 * (candidatesOf model).length) none := by
    rw [foldCands_status]
    rfl
  refine ⟨?_, ?_, ?_⟩
  · intro hcond
    have hc : (foldCands oracle (candidatesOf model) 0 initOrchState).minRetryAfter ≠
        none ∨ (foldCands oracle (candidatesOf model) 0 initOrchState).lastStatus =
          some 429 := by
      rw [hmin, hstat]; exact hcond
    have heq := tryModelsSequentially_of_fail_quota oracle model _ _ htc hc
    rw [heq]
    simp only
    rw [hmin]
  · rintro ⟨h1, h2⟩
    have hc : ¬((foldCands oracle (candidatesOf model) 0 initOrchState).minRetryAfter ≠
        none ∨ (foldCands oracle (candidatesOf model) 0 initOrchState).lastStatus =
          some 429) := by
      rw [hmin, hstat]
      push_neg
      exact ⟨h1, h2⟩
    have heq := tryModelsSequentially_of_fail_upstream oracle model _ _ htc hc
    exact ⟨_, _, by rw [heq]⟩
  · rw [minHintFrom_eq_none]
    constructor
    · rintro ⟨_, hall⟩ j hj
      simpa using hall j hj
    · intro hall
      exact ⟨rfl, fun j hj => by simpa using hall j hj⟩

/-- C1 witness: the spec's quota test — every call answers 429 with
retry-after "2", and the run fails with `quotaExhausted` carrying
`retryAfterSeconds = 2`. -/
theorem tryModels_exhausted_classification_witness :
    (∀ j, j < 3 * (candidatesOf proModel).length → audioOf (oracleQuota2 j) = none) ∧
    (tryModelsSequentially oracleQuota2 proModel).1 =
      .quotaExhausted ⟨"All TTS models quota-exceeded (429).", 429, some 2⟩ := by
  refine ⟨by decide, ?_⟩
  have h := (tryModels_exhausted_classification oracleQuota2 proModel (by decide)).1
    (Or.inl (by decide))
  exact h.trans (by decide)

theorem apiErrMsg_ne_empty (m : String) (s : Nat) (b : String) :
    apiErrMsg m s b ≠ "" := by
  intro h
  have hl := congrArg String.length h
  have h17 : ("Gemini API error " : String).length = 17 := rfl
  simp [apiErrMsg, String.length_append, h17] at hl

/-- C6 counterexample: both candidates' final responses are HTTP 500 (calls
2 and 5), but the very first attempt received a 429 carrying retry-after
hint "2", so the run fails with `quotaExhausted`, not `upstreamFailure`. -/
theorem tryModels_final500_not_always_upstream :
    statusOf (oracleHint429then500 2) = some 500 ∧
    statusOf (oracleHint429then500 5) = some 500 ∧
    tryModelsSequentially oracleHint429then500 proModel =
      (.quotaExhausted ⟨"All TTS models quota-exceeded (429).", 429, some 2⟩, 6) :=
  ⟨rfl, rfl, by decide⟩

/-- C6 (amended): for every run that exhausts all candidates without a
success, in which no attempt received a 429 carrying a parseable
retry-delay hint, and every candidate's final response is an HTTP response
with a non-429, non-success (nonzero) status: the orchestrator fails with
`upstreamFailure` carrying the last model's HTTP status and a diagnostic
containing that status plus the response body truncated to at most 500
characters. -/
theorem tryModels_all_final_http_errors (oracle : Nat → FetchOutcome) (model : String)
    (hN : ∀ j, j < 3 * (candidatesOf model).length → audioOf (oracle j) = none)
    (hHint : ∀ j, j < 3 * (candidatesOf model).length → hintOf (oracle j) = none)
    (hFin : ∀ i, i < (candidatesOf model).length →
      ∃ s, statusOf (oracle (3 * i + 2)) = some s ∧ isOk s = false ∧ s ≠ 429 ∧ s ≠ 0) :
    ∃ s, statusOf (oracle (3 * (candidatesOf model).length - 1)) = some s ∧
      (tryModelsSequentially oracle model).1 =
        .upstreamFailure ⟨apiErrMsg ((candidatesOf model).getLastD "") s
          (bodyOf (oracle (3 * (candidatesOf model).length - 1))), s, none⟩ := by
  have hlen : 0 < (candidatesOf model).length := by simp [candidatesOf]
  have hNlast : 3 * ((candidatesOf model).length - 1) + 2 =
      3 * (candidatesOf model).length - 1 := by omega
  obtain ⟨s, hs, hok, h429, h0⟩ := hFin ((candidatesOf model).length - 1) (by omega)
  rw [hNlast] at hs
  refine ⟨s, hs, ?_⟩
  have htc := tryCandidates_fail oracle (candidatesOf model) 0 initOrchState
    (fun j hj => by simpa using hN j (by simpa using hj))
  have hminF : (foldCands oracle (candidatesOf model) 0 initOrchState).minRetryAfter =
      none := by
    rw [foldCands_min]
    rw [show initOrchState.minRetryAfter = none from rfl, minHintFrom_eq_none]
    exact ⟨rfl, fun j hj => by simpa using hHint j (by simpa using hj)⟩
  obtain ⟨hdr, now, body, json, hor⟩ := statusOf_inv _ _ hs
  obtain ⟨st2, hlast⟩ := foldCands_last oracle (candidatesOf model) 0 initOrchState
    (List.cons_ne_nil _ _)
  rw [show (0 : Nat) + 3 * (candidatesOf model).length - 1 =
    3 * (candidatesOf model).length - 1 from by omega] at hlast
  have hstat : (foldCands oracle (candidatesOf model) 0 initOrchState).lastStatus =
      some s := by
    rw [hlast, processCall_status, hor]
    simp [statusOf]
  have herr : (foldCands oracle (candidatesOf model) 0 initOrchState).lastErr =
      some (apiErrMsg ((candidatesOf model).getLastD "") s
        (bodyOf (oracle (3 * (candidatesOf model).length - 1)))) := by
    rw [hlast, hor]
    simp [processCall, hok, h429, bodyOf]
  have hcond : ¬((foldCands oracle (candidatesOf model) 0 initOrchState).minRetryAfter ≠
      none ∨ (foldCands oracle (candidatesOf model) 0 initOrchState).lastStatus =
        some 429) := by
    push_neg
    refine ⟨hminF, ?_⟩
    rw [hstat]
    intro hh
    exact h429 (Option.some.inj hh)
  have heq := tryModelsSequentially_of_fail_upstream oracle model _ _ htc hcond
  rw [heq]
  simp only
  rw [herr, hstat]
  have hmsgne := apiErrMsg_ne_empty ((candidatesOf model).getLastD "") s
    (bodyOf (oracle (3 * (candidatesOf model).length - 1)))
  simp [jsOrStr, jsOrNat, h0]
  intro h
  exact absurd h (by simpa [List.getLastD_eq_getLast?] using hmsgne)

/-- C6 witness: the amended theorem applied to the run where every call
answers HTTP 500 with body "boom". -/
theorem tryModels_all_final_http_errors_witness :
    ∃ s, statusOf (oracleHttp500 (3 * (candidatesOf proModel).length - 1)) = some s ∧
      (tryModelsSequentially oracleHttp500 proModel).1 =
        .upstreamFailure ⟨apiErrMsg ((candidatesOf proModel).getLastD "") s
          (bodyOf (oracleHttp500 (3 * (candidatesOf proModel).length - 1))), s, none⟩ :=
  tryModels_all_final_http_errors oracleHttp500 proModel (by decide) (by decide)
    (fun i hi => ⟨500, rfl, by decide, by decide, by decide⟩)
